import Mathlib

/-!
Verification of the `ed448` signature container crate
(`src/ed448/src/lib.rs`): the `ComponentBytes` and `Signature` types,
byte-array and byte-slice parsing, serialization, conversions, equality
and hexadecimal display rendering.

Bytes (`u8`) are modelled as `Fin 256`; fixed-size Rust arrays
`[u8; N]` are modelled as lists of bytes with a length invariant.
-/

namespace Ed448

/-- A `u8` value. -/
abbrev Byte := Fin 256

/-- `const COMPONENT_SIZE: usize = 57;` -/
def COMPONENT_SIZE : Nat := 57

/-- `pub struct ComponentBytes([u8; COMPONENT_SIZE]);` — a fixed
57-byte buffer. The field `val` is the inner `[u8; 57]` array. -/
structure ComponentBytes where
  val : List Byte
  len_eq : val.length = COMPONENT_SIZE
deriving DecidableEq

/-- `impl Default for ComponentBytes`: `ComponentBytes([0; COMPONENT_SIZE])`. -/
def ComponentBytes.default : ComponentBytes :=
  ⟨List.replicate COMPONENT_SIZE 0, List.length_replicate _ _⟩

/-- `pub struct Signature { R: ComponentBytes, s: ComponentBytes }` -/
structure Signature where
  R : ComponentBytes
  s : ComponentBytes
deriving DecidableEq

/-- `pub const BYTE_SIZE: usize = COMPONENT_SIZE * 2;` -/
def Signature.BYTE_SIZE : Nat := COMPONENT_SIZE * 2

/-- `pub type SignatureBytes = [u8; Signature::BYTE_SIZE];` -/
def SignatureBytes := { l : List Byte // l.length = Signature.BYTE_SIZE }

instance : DecidableEq SignatureBytes :=
  fun a b => decidable_of_iff (a.val = b.val) Subtype.ext_iff.symm

/-- `Signature::from_bytes`: split the 114-byte array at offset 57 and
copy the two halves into `R` and `s`. -/
def Signature.from_bytes (bytes : SignatureBytes) : Signature :=
  { R := ⟨bytes.val.take COMPONENT_SIZE, by
      rw [List.length_take, bytes.property]; rfl⟩
    s := ⟨bytes.val.drop COMPONENT_SIZE, by
      rw [List.length_drop, bytes.property]; rfl⟩ }

/-- The single opaque error type of the `signature` crate:
`Error::new()` carries no information at this layer. -/
structure Error where
deriving DecidableEq

/-- `Error::new()`. -/
def Error.new : Error := ⟨⟩

/-- `<[u8; 114]>::try_from(&[u8])` — the standard-library conversion
used inside `from_slice`: succeeds iff the slice length is exactly 114. -/
def signatureBytesTryFrom (bytes : List Byte) : Option SignatureBytes :=
  if h : bytes.length = Signature.BYTE_SIZE then some ⟨bytes, h⟩ else none

/-- `Signature::from_slice`: `SignatureBytes::try_from(bytes).map(Into::into).map_err(|_| Error::new())`. -/
def Signature.from_slice (bytes : List Byte) : Except Error Signature :=
  match signatureBytesTryFrom bytes with
  | some arr => .ok (Signature.from_bytes arr)
  | none => .error Error.new

/-- `Signature::r_bytes`: accessor for the `R` component. -/
def Signature.r_bytes (sig : Signature) : ComponentBytes := sig.R

/-- `Signature::s_bytes`: accessor for the `s` component. -/
def Signature.s_bytes (sig : Signature) : ComponentBytes := sig.s

/-- `Signature::to_bytes`: write `R`'s 57 bytes at offsets 0..57 and
`s`'s 57 bytes at offsets 57..114 of a fresh 114-byte array. -/
def Signature.to_bytes (sig : Signature) : SignatureBytes :=
  ⟨sig.R.val ++ sig.s.val, by
    rw [List.length_append, sig.R.len_eq, sig.s.len_eq]; rfl⟩

/-- `impl From<Signature> for SignatureBytes`. -/
def fromSignature (sig : Signature) : SignatureBytes := sig.to_bytes

/-- `impl From<&Signature> for SignatureBytes`. -/
def fromSignatureRef (sig : Signature) : SignatureBytes := sig.to_bytes

/-- `impl From<SignatureBytes> for Signature`. -/
def fromSignatureBytes (bytes : SignatureBytes) : Signature :=
  Signature.from_bytes bytes

/-- `impl From<&SignatureBytes> for Signature`. -/
def fromSignatureBytesRef (bytes : SignatureBytes) : Signature :=
  Signature.from_bytes bytes

/-- `impl TryFrom<&[u8]> for Signature`: `Self::from_slice(bytes)`. -/
def Signature.tryFromSlice (bytes : List Byte) : Except Error Signature :=
  Signature.from_slice bytes

/-- `#[derive(PartialEq)]` on `ComponentBytes`: structural byte
comparison of the two 57-byte buffers. -/
def ComponentBytes.eqBytes (a b : ComponentBytes) : Bool :=
  a.val == b.val

/-- `#[derive(PartialEq)]` on `Signature`: structural comparison of the
`R` fields and the `s` fields. -/
def Signature.eqSig (a b : Signature) : Bool :=
  ComponentBytes.eqBytes a.R b.R && ComponentBytes.eqBytes a.s b.s

/-- Modelled from the spec: the uppercase hexadecimal digit for a value
below 16, as used by the crate's `UpperHex` implementation in the `hex`
module, whose source is not part of the provided tree. Digits 0..9 map
to characters 0x30..0x39 and digits 10..15 to 0x41..0x46
(uppercase letters). -/
def hexDigitChar (n : Nat) : Char :=
  if n < 10 then Char.ofNat (48 + n) else Char.ofNat (55 + n)

/-- Modelled from the spec: one byte rendered as exactly two uppercase
hexadecimal characters, the high nibble first, with zero padding. -/
def byteToHexChars (b : Byte) : List Char :=
  [hexDigitChar (b.val / 16), hexDigitChar (b.val % 16)]

/-- Modelled from the spec: `impl fmt::Display for Signature` delegates
to `{:X}` (`UpperHex`, implemented in the crate's missing `hex` module),
which renders the full 114-byte flat form (`to_bytes`) as uppercase
hexadecimal with no separators, prefix or padding. -/
def Signature.display (sig : Signature) : String :=
  String.mk ((sig.to_bytes.val.map byteToHexChars).flatten)

/-- The byte of a 114-byte array at a position below 114. -/
def SignatureBytes.byte (b : SignatureBytes) (i : Fin 114) : Byte :=
  b.val.get (Fin.cast b.property.symm i)

/-- The concrete 114-byte array whose first 57 bytes are `0xAA` and
whose last 57 bytes are `0xBB`. -/
def aabbBytes : SignatureBytes :=
  ⟨List.replicate 57 (0xAA : Byte) ++ List.replicate 57 (0xBB : Byte), by decide⟩

/-- The signature parsed from 114 zero bytes. -/
def zeroSig : Signature :=
  Signature.from_bytes ⟨List.replicate 114 (0 : Byte), by decide⟩

/-- The signature parsed from 114 `0xFF` bytes. -/
def ffSig : Signature :=
  Signature.from_bytes ⟨List.replicate 114 (0xFF : Byte), by decide⟩

/-- Helper: serializing the parse of a 114-byte array is the identity. -/
theorem Signature.to_from_aux (b : SignatureBytes) :
    (Signature.from_bytes b).to_bytes = b := by
  apply Subtype.ext
  exact List.take_append_drop COMPONENT_SIZE b.val

/-- Helper: parsing the serialization of a signature is the identity. -/
theorem Signature.from_to_aux (sig : Signature) :
    Signature.from_bytes sig.to_bytes = sig := by
  obtain ⟨⟨r, hr⟩, ⟨s, hs⟩⟩ := sig
  simp only [Signature.from_bytes, Signature.to_bytes, Signature.mk.injEq,
    ComponentBytes.mk.injEq]
  constructor
  · show (r ++ s).take COMPONENT_SIZE = r
    rw [← hr, List.take_left]
  · show (r ++ s).drop COMPONENT_SIZE = s
    rw [← hr, List.drop_left]

/-- C1: for every 114-byte array `b`, serializing the signature parsed
from `b` returns `b` unchanged: `to_bytes(from_bytes(b)) = b`. -/
theorem to_bytes_from_bytes (b : SignatureBytes) :
    (Signature.from_bytes b).to_bytes = b :=
  Signature.to_from_aux b

/-- C4: for every `Signature` value `sig`, parsing the array produced by
serializing it yields `sig` back: `from_bytes(to_bytes(sig)) = sig`. -/
theorem from_bytes_to_bytes (sig : Signature) :
    Signature.from_bytes sig.to_bytes = sig :=
  Signature.from_to_aux sig

/-- `from_slice` written as a single conditional: helper lemma shared by
the parsing theorems below. -/
theorem from_slice_spec (l : List Byte) :
    Signature.from_slice l =
      if h : l.length = Signature.BYTE_SIZE then
        Except.ok (Signature.from_bytes ⟨l, h⟩)
      else Except.error Error.new := by
  unfold Signature.from_slice signatureBytesTryFrom
  by_cases h : l.length = Signature.BYTE_SIZE
  · rw [dif_pos h, dif_pos h]
  · rw [dif_neg h, dif_neg h]

/-- C2: slice parsing (`from_slice`, and the `TryFrom` conversion
defined on it) succeeds iff the input has length exactly 114; for every
other length, including 0, 1, 113, 115 and 1000, it returns the single
opaque decode error. -/
theorem from_slice_length_contract (l : List Byte) :
    ((∃ sig, Signature.from_slice l = Except.ok sig) ↔ l.length = 114)
    ∧ (Signature.from_slice l = Except.error Error.new ↔ l.length ≠ 114)
    ∧ Signature.tryFromSlice l = Signature.from_slice l
    ∧ Signature.from_slice ([] : List Byte) = Except.error Error.new
    ∧ Signature.from_slice (List.replicate 1 (0 : Byte)) = Except.error Error.new
    ∧ Signature.from_slice (List.replicate 113 (0 : Byte)) = Except.error Error.new
    ∧ Signature.from_slice (List.replicate 115 (0 : Byte)) = Except.error Error.new
    ∧ Signature.from_slice (List.replicate 1000 (0 : Byte)) = Except.error Error.new
    ∧ (∃ sig, Signature.from_slice (List.replicate 114 (0 : Byte)) = Except.ok sig) := by
  have h114 : (List.replicate 114 (0 : Byte)).length = Signature.BYTE_SIZE := by
    rw [List.length_replicate]
    decide
  refine ⟨?_, ?_, rfl, rfl, ?_, ?_, ?_, ?_, ⟨_, by rw [from_slice_spec, dif_pos h114]⟩⟩
  · rw [from_slice_spec]
    by_cases h : l.length = Signature.BYTE_SIZE
    · rw [dif_pos h]
      exact iff_of_true ⟨_, rfl⟩ h
    · rw [dif_neg h]
      exact iff_of_false (fun ⟨sig, hs⟩ => Except.noConfusion hs) h
  · rw [from_slice_spec]
    by_cases h : l.length = Signature.BYTE_SIZE
    · rw [dif_pos h]
      exact iff_of_false (fun heq => Except.noConfusion heq) (fun hne => hne h)
    · rw [dif_neg h]
      exact iff_of_true rfl h
  · rw [from_slice_spec, dif_neg]
    rw [List.length_replicate]
    decide
  · rw [from_slice_spec, dif_neg]
    rw [List.length_replicate]
    decide
  · rw [from_slice_spec, dif_neg]
    rw [List.length_replicate]
    decide
  · rw [from_slice_spec, dif_neg]
    rw [List.length_replicate]
    decide

/-- C5: for every byte slice of length exactly 114, `from_slice` returns
`Ok` of exactly the signature that `from_bytes` produces on the same
bytes. -/
theorem from_slice_agrees_from_bytes (l : List Byte) (h : l.length = 114) :
    Signature.from_slice l = Except.ok (Signature.from_bytes ⟨l, h⟩) := by
  rw [from_slice_spec, dif_pos (show l.length = Signature.BYTE_SIZE from h)]

/-- Witness for C5 at the all-zero 114-byte slice. -/
theorem from_slice_agrees_from_bytes_witness :
    Signature.from_slice (List.replicate 114 (0 : Byte))
      = Except.ok (Signature.from_bytes ⟨List.replicate 114 (0 : Byte), by decide⟩) :=
  from_slice_agrees_from_bytes (List.replicate 114 (0 : Byte)) (by decide)

/-- C8: every conversion between `Signature` and the 114-byte array type
computes exactly the corresponding one of `to_bytes`, `from_bytes` and
`from_slice`, and the array-direction conversions are infallible
(they are total functions whose round composition is the identity). -/
theorem conversions_delegate :
    (∀ sig : Signature, fromSignature sig = sig.to_bytes)
    ∧ (∀ sig : Signature, fromSignatureRef sig = sig.to_bytes)
    ∧ (∀ b : SignatureBytes, fromSignatureBytes b = Signature.from_bytes b)
    ∧ (∀ b : SignatureBytes, fromSignatureBytesRef b = Signature.from_bytes b)
    ∧ (∀ l : List Byte, Signature.tryFromSlice l = Signature.from_slice l)
    ∧ (∀ sig : Signature, fromSignatureBytes (fromSignature sig) = sig)
    ∧ (∀ b : SignatureBytes, fromSignature (fromSignatureBytes b) = b) :=
  ⟨fun _ => rfl, fun _ => rfl, fun _ => rfl, fun _ => rfl, fun _ => rfl,
    fun sig => Signature.from_to_aux sig, fun b => Signature.to_from_aux b⟩

/-- C9: `from_slice` is total on every input: for a byte slice of any
length, including the empty slice, it returns a `Result` value — either
`Ok` of a signature or the opaque decode error — and the Lean model
is a total function, mirroring the panic-free Rust code which performs
no unguarded indexing. -/
theorem from_slice_total (l : List Byte) :
    ((∃ sig, Signature.from_slice l = Except.ok sig)
      ∨ Signature.from_slice l = Except.error Error.new)
    ∧ Signature.from_slice ([] : List Byte) = Except.error Error.new := by
  refine ⟨?_, rfl⟩
  rw [from_slice_spec]
  by_cases h : l.length = Signature.BYTE_SIZE
  · rw [dif_pos h]
    exact Or.inl ⟨_, rfl⟩
  · rw [dif_neg h]
    exact Or.inr rfl

/-- C10: the default construction of `ComponentBytes` returns a value
all 57 of whose bytes are zero. -/
theorem componentBytes_default_zero :
    ComponentBytes.default.val = List.replicate 57 (0 : Byte)
    ∧ ComponentBytes.default.val.length = 57
    ∧ ∀ i : Fin 57, ComponentBytes.default.val.get (Fin.cast (by decide) i) = 0 := by
  refine ⟨rfl, rfl, fun i => ?_⟩
  show (List.replicate 57 (0 : Byte)).get _ = 0
  simp only [List.get_eq_getElem, List.getElem_replicate]

/-- C3: for every 114-byte array `b`, the parsed signature's `r_bytes`
are bytes 0..57 of `b` and its `s_bytes` are bytes 57..114 of `b`;
symmetrically `to_bytes` places `R` at offsets 0..57 and `s` at offsets
57..114; and on the concrete array of 57 `0xAA` bytes followed by 57
`0xBB` bytes, `r_bytes` is 57 bytes of `0xAA` and `s_bytes` is 57 bytes
of `0xBB`. -/
theorem component_split (b : SignatureBytes) :
    (∀ i : Fin 57, (Signature.from_bytes b).r_bytes.val[i.val]? = b.val[i.val]?)
    ∧ (∀ i : Fin 57, (Signature.from_bytes b).s_bytes.val[i.val]? = b.val[i.val + 57]?)
    ∧ (∀ sig : Signature, ∀ i : Fin 57, sig.to_bytes.val[i.val]? = sig.r_bytes.val[i.val]?)
    ∧ (∀ sig : Signature, ∀ i : Fin 57,
        sig.to_bytes.val[i.val + 57]? = sig.s_bytes.val[i.val]?)
    ∧ (Signature.from_bytes aabbBytes).r_bytes.val = List.replicate 57 (0xAA : Byte)
    ∧ (Signature.from_bytes aabbBytes).s_bytes.val = List.replicate 57 (0xBB : Byte) := by
  refine ⟨fun i => ?_, fun i => ?_, fun sig i => ?_, fun sig i => ?_, ?_, ?_⟩
  · show (b.val.take COMPONENT_SIZE)[i.val]? = b.val[i.val]?
    rw [List.getElem?_take, if_pos (show i.val < COMPONENT_SIZE from i.isLt)]
  · show (b.val.drop COMPONENT_SIZE)[i.val]? = b.val[i.val + 57]?
    rw [List.getElem?_drop, Nat.add_comm]
    rfl
  · show (sig.R.val ++ sig.s.val)[i.val]? = sig.R.val[i.val]?
    rw [List.getElem?_append, if_pos]
    rw [sig.R.len_eq]
    exact i.isLt
  · show (sig.R.val ++ sig.s.val)[i.val + 57]? = sig.s.val[i.val]?
    rw [List.getElem?_append, if_neg, sig.R.len_eq]
    · show sig.s.val[i.val + 57 - 57]? = sig.s.val[i.val]?
      rw [Nat.add_sub_cancel]
    · rw [sig.R.len_eq]
      show ¬(i.val + 57 < 57)
      omega
  · decide
  · decide

/-- Helper: `ComponentBytes` values are equal iff their byte lists are. -/
theorem componentBytes_val_inj (a b : ComponentBytes) : a.val = b.val ↔ a = b := by
  cases a
  cases b
  simp

/-- Helper: the derived structural equality test on `Signature` decides
propositional equality. -/
theorem eqSig_iff (a b : Signature) : Signature.eqSig a b = true ↔ a = b := by
  obtain ⟨aR, as⟩ := a
  obtain ⟨bR, bs⟩ := b
  simp only [Signature.eqSig, ComponentBytes.eqBytes, Bool.and_eq_true, beq_iff_eq,
    Signature.mk.injEq]
  rw [componentBytes_val_inj, componentBytes_val_inj]

/-- C7: signature equality is structural on the full 114-byte content:
signatures from the same 114 bytes compare equal, from differing bytes
unequal, and the relation is an equivalence (reflexive, symmetric,
transitive). -/
theorem signature_eq_structural :
    (∀ b b' : SignatureBytes,
      Signature.eqSig (Signature.from_bytes b) (Signature.from_bytes b') = true ↔ b = b')
    ∧ (∀ s1 s2 : Signature, Signature.eqSig s1 s2 = true ↔ s1 = s2)
    ∧ Equivalence (fun s1 s2 : Signature => Signature.eqSig s1 s2 = true) := by
  refine ⟨fun b b' => ?_, eqSig_iff, ?_⟩
  · rw [eqSig_iff]
    constructor
    · intro h
      have := congrArg Signature.to_bytes h
      rwa [Signature.to_from_aux, Signature.to_from_aux] at this
    · intro h
      rw [h]
  · refine ⟨fun s1 => ?_, fun {s1 s2} h => ?_, fun {s1 s2 s3} h1 h2 => ?_⟩
    · rw [eqSig_iff]
    · rw [eqSig_iff] at h ⊢
      exact h.symm
    · rw [eqSig_iff] at h1 h2 ⊢
      exact h1.trans h2

/-- Membership of a character in the uppercase hexadecimal alphabet. -/
def hexMember (c : Char) : Bool :=
  ("0123456789ABCDEF".data).contains c

/-- Helper: the hex rendering of a byte list has twice its length. -/
theorem flatten_hex_length (l : List Byte) :
    ((l.map byteToHexChars).flatten).length = 2 * l.length := by
  induction l with
  | nil => rfl
  | cons b t ih =>
    simp only [List.map_cons, List.flatten_cons, List.length_append, ih,
      List.length_cons]
    show 2 + 2 * t.length = 2 * (t.length + 1)
    ring

/-- Helper: character `2*i` of the hex rendering is the high nibble of
byte `i`. -/
theorem flatten_hex_even (l : List Byte) :
    ∀ i : Nat, ((l.map byteToHexChars).flatten)[2 * i]?
      = Option.map (fun b : Byte => hexDigitChar (b.val / 16)) l[i]? := by
  induction l with
  | nil =>
    intro i
    simp
  | cons b t ih =>
    intro i
    cases i with
    | zero =>
      simp [byteToHexChars]
    | succ j =>
      show (hexDigitChar _ :: hexDigitChar _ :: (t.map byteToHexChars).flatten)[2 * (j + 1)]?
        = Option.map _ (b :: t)[j + 1]?
      have h2 : 2 * (j + 1) = 2 * j + 1 + 1 := by ring
      rw [h2, List.getElem?_cons_succ, List.getElem?_cons_succ, ih j,
        List.getElem?_cons_succ]

/-- Helper: character `2*i+1` of the hex rendering is the low nibble of
byte `i`. -/
theorem flatten_hex_odd (l : List Byte) :
    ∀ i : Nat, ((l.map byteToHexChars).flatten)[2 * i + 1]?
      = Option.map (fun b : Byte => hexDigitChar (b.val % 16)) l[i]? := by
  induction l with
  | nil =>
    intro i
    simp
  | cons b t ih =>
    intro i
    cases i with
    | zero =>
      simp [byteToHexChars]
    | succ j =>
      show (hexDigitChar _ :: hexDigitChar _ :: (t.map byteToHexChars).flatten)[2 * (j + 1) + 1]?
        = Option.map _ (b :: t)[j + 1]?
      have h2 : 2 * (j + 1) + 1 = 2 * j + 1 + 1 + 1 := by ring
      rw [h2, List.getElem?_cons_succ, List.getElem?_cons_succ, ih j,
        List.getElem?_cons_succ]

set_option maxRecDepth 4000 in
/-- Helper: every character of the hex rendering of a single byte is in
the uppercase hexadecimal alphabet. -/
theorem byteToHexChars_all_hex (b : Byte) :
    (byteToHexChars b).all hexMember = true := by
  revert b
  decide

/-- Helper: flattening `n` copies of a two-character list yields `2*n`
copies of the character. -/
theorem flatten_replicate_pair (c : Char) :
    ∀ n : Nat, (List.replicate n [c, c]).flatten = List.replicate (2 * n) c := by
  intro n
  induction n with
  | zero => rfl
  | succ m ih =>
    rw [List.replicate_succ, List.flatten_cons, ih]
    show [c, c] ++ List.replicate (2 * m) c = List.replicate (2 * (m + 1)) c
    have h2 : 2 * (m + 1) = 2 * m + 1 + 1 := by ring
    rw [h2, List.replicate_succ, List.replicate_succ]
    rfl

/-- Helper: every character of the hex rendering of a byte list is in
the uppercase hexadecimal alphabet. -/
theorem flatten_hex_all (l : List Byte) :
    ((l.map byteToHexChars).flatten).all hexMember = true := by
  induction l with
  | nil => rfl
  | cons b t ih =>
    simp only [List.map_cons, List.flatten_cons, List.all_append, ih,
      byteToHexChars_all_hex, Bool.and_self]

/-- C6: the `Display` rendering of every signature is exactly 228
characters, the uppercase hexadecimal encoding of the 114-byte flat form
(character `2i` is the high nibble and character `2i+1` the low nibble
of byte `i` of `to_bytes`), every character is an uppercase hex digit;
the all-zero signature renders as 228 `0` characters and the all-`0xFF`
signature as 228 `F` characters. -/
theorem display_upper_hex (sig : Signature) :
    sig.display.length = 228
    ∧ (∀ i : Fin 114, sig.display.data[2 * i.val]?
        = some (hexDigitChar ((sig.to_bytes.byte i).val / 16)))
    ∧ (∀ i : Fin 114, sig.display.data[2 * i.val + 1]?
        = some (hexDigitChar ((sig.to_bytes.byte i).val % 16)))
    ∧ sig.display.data.all hexMember = true
    ∧ zeroSig.display = String.mk (List.replicate 228 ('0' : Char))
    ∧ ffSig.display = String.mk (List.replicate 228 ('F' : Char)) := by
  refine ⟨?_, fun i => ?_, fun i => ?_, ?_, ?_, ?_⟩
  · show ((sig.to_bytes.val.map byteToHexChars).flatten).length = 228
    rw [flatten_hex_length, sig.to_bytes.property]
    decide
  · show ((sig.to_bytes.val.map byteToHexChars).flatten)[2 * i.val]? = _
    rw [flatten_hex_even]
    have hlen : i.val < sig.to_bytes.val.length := by
      rw [sig.to_bytes.property]
      exact i.isLt
    rw [List.getElem?_eq_getElem hlen]
    rfl
  · show ((sig.to_bytes.val.map byteToHexChars).flatten)[2 * i.val + 1]? = _
    rw [flatten_hex_odd]
    have hlen : i.val < sig.to_bytes.val.length := by
      rw [sig.to_bytes.property]
      exact i.isLt
    rw [List.getElem?_eq_getElem hlen]
    rfl
  · exact flatten_hex_all sig.to_bytes.val
  · have hz : zeroSig.to_bytes.val = List.replicate 114 (0 : Byte) :=
      congrArg Subtype.val (Signature.to_from_aux _)
    show String.mk ((zeroSig.to_bytes.val.map byteToHexChars).flatten) = _
    rw [hz, List.map_replicate]
    have hb : byteToHexChars (0 : Byte) = [('0' : Char), '0'] := by decide
    rw [hb, flatten_replicate_pair]
  · have hf : ffSig.to_bytes.val = List.replicate 114 (0xFF : Byte) :=
      congrArg Subtype.val (Signature.to_from_aux _)
    show String.mk ((ffSig.to_bytes.val.map byteToHexChars).flatten) = _
    rw [hf, List.map_replicate]
    have hb : byteToHexChars (0xFF : Byte) = [('F' : Char), 'F'] := by decide
    rw [hb, flatten_replicate_pair]

end Ed448
